import Mathlib

/-!
Verification of the `rust-latest` viable-manifest resolver (`src/main.rs`).

The development shallowly embeds the program's data model and core
functions — the availability filter (`filter_manifest`), the manifest
fetcher (`get_manifest`), the backward date search
(`find_latest_viable_manifest`) and the toolchain namer
(`make_toolchain_name` / `get_rust_version`) — as executable Lean
definitions, and proves the specified properties about them.

Modelling conventions:
- Rust `HashMap<String, V>` fields become association lists
  `List (String × V)`; a real `HashMap` has unique keys, so lemmas that
  need key uniqueness take a `Nodup` hypothesis.
- `chrono::NaiveDate` becomes `ℤ`, a count of days since 1970-01-01
  (proleptic Gregorian).  `chrono` bounds years to ±262143; the model
  idealizes dates as unbounded, so `checked_sub_signed` always succeeds.
- Network effects are abstracted into oracles: the search takes the
  result of fetching the channel's latest manifest plus a function from
  a date to the result of fetching that date-stamped manifest.  The
  fetched-request log is computed alongside the result so that the
  short-circuit property is observable.
- `anyhow` errors become `String` messages; the panic raised by indexing
  a `HashMap` with a missing profile name becomes an explicit
  `SearchError.profilePanic` outcome, since a panic aborts the run.
-/

/-- Rust struct `PackageInfo`: per-target availability flag. -/
structure PackageInfo where
  available : Bool
deriving DecidableEq, Repr

/-- Rust struct `PackageTargets`: one package's version string and its
per-target availability map (`target` table in the TOML). -/
structure PackageTargets where
  version : String
  targets : List (String × PackageInfo)
deriving DecidableEq, Repr

/-- Rust struct `Manifest`: one day's release metadata.  `date` is the
manifest's own publication date (days since 1970-01-01 in this model),
`packages` is the `pkg` table, `profiles` maps profile names to package
name lists. -/
structure Manifest where
  date : ℤ
  packages : List (String × PackageTargets)
  profiles : List (String × List String)
deriving DecidableEq, Repr

/-- Embedding of `filter_manifest` (src/main.rs lines 133-159): iterate
the manifest's package map, keep packages that are not ignored and are in
the profile list, flat-map to the availability entries of the in-scope
targets that are explicitly present, and require them all available. -/
def filter_manifest (manifest : Manifest) (profile : List String)
    (ignored_packages : List String) (targets : List String) : Bool :=
  ((manifest.packages.filter fun pkg =>
      if ignored_packages.contains pkg.1 then false
      else if !(profile.contains pkg.1) then false
      else true).flatMap fun pkg =>
        targets.filterMap fun target => pkg.2.targets.lookup target).all
    fun package_info => package_info.available

/-- Characterization of `filter_manifest`: it returns `true` iff every
explicit availability entry of a selected (non-ignored, in-profile)
package at an in-scope target is `available`. -/
theorem filter_manifest_eq_true_iff (m : Manifest) (profile ignored targets : List String) :
    filter_manifest m profile ignored targets = true ↔
      ∀ p pt, (p, pt) ∈ m.packages → p ∉ ignored → p ∈ profile →
        ∀ t ∈ targets, ∀ pi, pt.targets.lookup t = some pi → pi.available = true := by
  unfold filter_manifest
  rw [List.all_eq_true]
  constructor
  · intro h p pt hmem hig hprof t ht pi hpi
    refine h pi ?_
    rw [List.mem_flatMap]
    refine ⟨(p, pt), ?_, ?_⟩
    · rw [List.mem_filter]
      refine ⟨hmem, ?_⟩
      simp
      exact ⟨hig, hprof⟩
    · rw [List.mem_filterMap]
      exact ⟨t, ht, hpi⟩
  · intro h pi hpi
    rw [List.mem_flatMap] at hpi
    obtain ⟨⟨p, pt⟩, hmem, hentry⟩ := hpi
    rw [List.mem_filter] at hmem
    obtain ⟨hmem, hsel⟩ := hmem
    rw [List.mem_filterMap] at hentry
    obtain ⟨t, ht, hlook⟩ := hentry
    by_cases hig : p ∈ ignored
    · simp [hig] at hsel
    · by_cases hprof : p ∈ profile
      · exact h p pt hmem hig hprof t ht pi hlook
      · simp [hig, hprof] at hsel

/-- C1: the availability filter skips every (package, target) pair with no
explicit entry in the package's target mapping, and returns `true` iff
every explicit entry found among the selected (non-ignored, in-profile)
pairs has `available = true`; in particular, when no selected pair has an
explicit entry, the manifest is viable. -/
theorem filter_manifest_explicit_entries (m : Manifest)
    (profile ignored targets : List String) :
    (filter_manifest m profile ignored targets = true ↔
      ∀ p pt, (p, pt) ∈ m.packages → p ∉ ignored → p ∈ profile →
        ∀ t ∈ targets, ∀ pi, pt.targets.lookup t = some pi → pi.available = true) ∧
    ((∀ p pt, (p, pt) ∈ m.packages → p ∉ ignored → p ∈ profile →
        ∀ t ∈ targets, pt.targets.lookup t = none) →
      filter_manifest m profile ignored targets = true) := by
  refine ⟨filter_manifest_eq_true_iff m profile ignored targets, ?_⟩
  intro hnone
  rw [filter_manifest_eq_true_iff]
  intro p pt hmem hig hprof t ht pi hpi
  rw [hnone p pt hmem hig hprof t ht] at hpi
  exact absurd hpi (by simp)

/-- Concrete instantiation of `filter_manifest_explicit_entries`. -/
theorem filter_manifest_explicit_entries_witness :
    (filter_manifest ⟨0, [("rustc", ⟨"1.0", [("t1", ⟨true⟩)]⟩)], []⟩ ["rustc"] [] ["t1"] = true ↔
      ∀ p pt, (p, pt) ∈ [("rustc", (⟨"1.0", [("t1", ⟨true⟩)]⟩ : PackageTargets))] →
        p ∉ ([] : List String) → p ∈ ["rustc"] →
        ∀ t ∈ ["t1"], ∀ pi, pt.targets.lookup t = some pi → pi.available = true) ∧
    ((∀ p pt, (p, pt) ∈ [("rustc", (⟨"1.0", [("t1", ⟨true⟩)]⟩ : PackageTargets))] →
        p ∉ ([] : List String) → p ∈ ["rustc"] →
        ∀ t ∈ ["t1"], pt.targets.lookup t = none) →
      filter_manifest ⟨0, [("rustc", ⟨"1.0", [("t1", ⟨true⟩)]⟩)], []⟩ ["rustc"] [] ["t1"] = true) :=
  filter_manifest_explicit_entries ⟨0, [("rustc", ⟨"1.0", [("t1", ⟨true⟩)]⟩)], []⟩ ["rustc"] [] ["t1"]

/-- HTTP response model for `get_manifest`: a status code and a body
read.  Reading the body may itself fail (`read_to_end` in the source),
so the body is an `Except`. -/
structure HttpResponse (β : Type) where
  status : Nat
  read_body : Except String β

/-- Rust `StatusCode::OK`. -/
def STATUS_OK : Nat := 200

/-- Rust `StatusCode::NOT_FOUND`. -/
def STATUS_NOT_FOUND : Nat := 404

/-- Embedding of `get_manifest` (src/main.rs lines 115-131).  `send` is
the outcome of `client.get(url).send()` and `parse` abstracts
`toml::from_slice`.  A 404 yields `ok none` (the distinct "absent"
result); any other non-200 status, a request error, a body-read error or
a parse error yields a hard failure. -/
def get_manifest {β : Type} (parse : β → Except String Manifest)
    (send : Except String (HttpResponse β)) : Except String (Option Manifest) :=
  match send with
  | Except.error e => Except.error ("error making request: " ++ e)
  | Except.ok res =>
    if res.status = STATUS_OK then
      match res.read_body with
      | Except.error e => Except.error ("error downloading latest manifest: " ++ e)
      | Except.ok content =>
        match parse content with
        | Except.error e => Except.error ("error reading latest manifest: " ++ e)
        | Except.ok manifest => Except.ok (some manifest)
    else if res.status = STATUS_NOT_FOUND then Except.ok none
    else Except.error "error getting latest manifest: unexpected status code"

/-- C5: a not-found response yields the distinct absent result `ok none`
(not an error); every other non-success status yields a hard failure;
and a body that fails to deserialize yields a hard failure, never the
absent result. -/
theorem get_manifest_status_behavior {β : Type} (parse : β → Except String Manifest)
    (res : HttpResponse β) :
    (res.status = STATUS_NOT_FOUND →
      get_manifest parse (Except.ok res) = Except.ok none) ∧
    (res.status ≠ STATUS_OK → res.status ≠ STATUS_NOT_FOUND →
      ∃ e, get_manifest parse (Except.ok res) = Except.error e) ∧
    (res.status = STATUS_OK → ∀ content pe, res.read_body = Except.ok content →
      parse content = Except.error pe →
      ∃ e, get_manifest parse (Except.ok res) = Except.error e) := by
  refine ⟨?_, ?_, ?_⟩
  · intro h404
    unfold get_manifest
    by_cases h200 : res.status = STATUS_OK
    · rw [h404] at h200
      exact absurd h200 (by decide)
    · simp [h200, h404, STATUS_OK, STATUS_NOT_FOUND]
  · intro h200 h404
    unfold get_manifest
    simp [h200, h404]
  · intro h200 content pe hread hparse
    unfold get_manifest
    simp [h200, hread, hparse]

/-- Concrete instantiation of `get_manifest_status_behavior` at a 404
response with an unparseable body. -/
theorem get_manifest_status_behavior_witness :
    ((404 : Nat) = STATUS_NOT_FOUND →
      get_manifest (fun _ : Unit => Except.error "bad toml")
        (Except.ok ⟨404, Except.ok ()⟩) = Except.ok none) ∧
    ((404 : Nat) ≠ STATUS_OK → (404 : Nat) ≠ STATUS_NOT_FOUND →
      ∃ e, get_manifest (fun _ : Unit => Except.error "bad toml")
        (Except.ok ⟨404, Except.ok ()⟩) = Except.error e) ∧
    ((404 : Nat) = STATUS_OK → ∀ content pe,
      (Except.ok () : Except String Unit) = Except.ok content →
      (fun _ : Unit => (Except.error "bad toml" : Except String Manifest)) content = Except.error pe →
      ∃ e, get_manifest (fun _ : Unit => Except.error "bad toml")
        (Except.ok ⟨404, Except.ok ()⟩) = Except.error e) :=
  get_manifest_status_behavior (fun _ : Unit => Except.error "bad toml") ⟨404, Except.ok ()⟩

/-- Embedding of the regex `^(\d+\.\d+\.\d+)` capture used by
`get_rust_version` (src/main.rs line 211): a maximal nonempty run of
digits, a dot, a maximal nonempty run of digits, a dot, a maximal
nonempty run of digits, anchored at the start of the string.  The regex
crate's `\d` is modelled as the decimal digit class `Char.isDigit`. -/
def capture_version (s : String) : Option String :=
  let p1 := s.toList.span (fun c => c.isDigit)
  if p1.1 = [] then none
  else
    match p1.2 with
    | '.' :: r1 =>
      let p2 := r1.span (fun c => c.isDigit)
      if p2.1 = [] then none
      else
        match p2.2 with
        | '.' :: r2 =>
          let p3 := r2.span (fun c => c.isDigit)
          if p3.1 = [] then none
          else some (String.mk (p1.1 ++ '.' :: p2.1 ++ '.' :: p3.1))
        | _ => none
    | _ => none

/-- Embedding of `get_rust_version` (src/main.rs lines 209-216): look up
the package literally named "rust" and capture the leading
MAJOR.MINOR.PATCH pattern of its version string. -/
def get_rust_version (manifest : Manifest) : Option String :=
  match manifest.packages.lookup "rust" with
  | none => none
  | some package => capture_version package.version

/-- Conversion from a count of days since 1970-01-01 to a proleptic
Gregorian calendar date (year, month, day); standard civil-from-days
algorithm, used to model `chrono`'s ISO rendering of a `NaiveDate`. -/
def civil_from_days (z0 : ℤ) : ℤ × ℕ × ℕ :=
  let z : ℤ := z0 + 719468
  let era : ℤ := z / 146097
  let doe : ℕ := (z % 146097).toNat
  let yoe : ℕ := (doe - doe / 1460 + doe / 36524 - doe / 146096) / 365
  let y : ℤ := (yoe : ℤ) + era * 400
  let doy : ℕ := doe - (365 * yoe + yoe / 4 - yoe / 100)
  let mp : ℕ := (5 * doy + 2) / 153
  let d : ℕ := doy - (153 * mp + 2) / 5 + 1
  let m : ℕ := if mp < 10 then mp + 3 else mp - 9
  (if m ≤ 2 then y + 1 else y, m, d)

/-- Zero-padding of a number to at least four digits. -/
def pad4 (n : ℕ) : String :=
  if n < 10 then "000" ++ toString n
  else if n < 100 then "00" ++ toString n
  else if n < 1000 then "0" ++ toString n
  else toString n

/-- Zero-padding of a number to at least two digits. -/
def pad2 (n : ℕ) : String :=
  if n < 10 then "0" ++ toString n else toString n

/-- Rendering of a year as `chrono`'s `%Y` does: zero-padded to four
digits, a leading minus sign for negative years and a leading plus sign
for years of five or more digits. -/
def fmt_year (y : ℤ) : String :=
  if y < 0 then "-" ++ pad4 (-y).toNat
  else if 10000 ≤ y then "+" ++ toString y.toNat
  else pad4 y.toNat

/-- Model of `chrono::NaiveDate`'s `Display`: the ISO calendar date
`YYYY-MM-DD` for the given count of days since 1970-01-01. -/
def naive_date_display (d : ℤ) : String :=
  let c := civil_from_days d
  fmt_year c.1 ++ "-" ++ pad2 c.2.1 ++ "-" ++ pad2 c.2.2

/-- Embedding of `make_toolchain_name` (src/main.rs lines 218-230): for
an unforced "stable" lookup whose manifest has a "rust" package with a
capturable MAJOR.MINOR.PATCH version, return the captured version;
otherwise return `channel ++ "-" ++ date` with the manifest's own date
rendered as an ISO calendar date. -/
def make_toolchain_name (manifest : Manifest) (channel : String)
    (force_date : Bool) : String :=
  if !force_date && channel == "stable" then
    match get_rust_version manifest with
    | some version => version
    | none => channel ++ "-" ++ naive_date_display manifest.date
  else channel ++ "-" ++ naive_date_display manifest.date

/-- C6: for an unforced lookup on channel "stable" whose manifest has a
package named "rust" with a version string starting with a
MAJOR.MINOR.PATCH numeric pattern, the namer returns exactly the
captured numeric prefix; in every other case it returns
`<channel>-<date>` with the manifest's own date in ISO calendar format.
The derivation is a total function. -/
theorem make_toolchain_name_spec (m : Manifest) (channel : String) (force_date : Bool) :
    (∀ pt v, force_date = false → channel = "stable" →
      m.packages.lookup "rust" = some pt → capture_version pt.version = some v →
      make_toolchain_name m channel force_date = v) ∧
    ((force_date = true ∨ channel ≠ "stable" ∨ get_rust_version m = none) →
      make_toolchain_name m channel force_date =
        channel ++ "-" ++ naive_date_display m.date) := by
  constructor
  · intro pt v hf hc hlook hcap
    subst hf
    subst hc
    unfold make_toolchain_name get_rust_version
    rw [hlook]
    simp [hcap]
  · intro h
    rcases h with hf | hc | hg
    · subst hf
      unfold make_toolchain_name
      simp
    · unfold make_toolchain_name
      have hbeq : (channel == "stable") = false := by
        simp [hc]
      rw [hbeq]
      simp
    · unfold make_toolchain_name
      rw [hg]
      by_cases hcond : (!force_date && channel == "stable") = true
      · rw [if_pos hcond]
      · rw [if_neg hcond]

/-- Concrete instantiation of `make_toolchain_name_spec`: the manifest of
2024-01-09 with rust version "1.75.0 (abcdef 2024-01-09)" names the
toolchain "1.75.0" for a plain stable lookup and "stable-2024-01-09"
when date-stamping is forced. -/
theorem make_toolchain_name_spec_witness :
    make_toolchain_name ⟨19731, [("rust", ⟨"1.75.0 (abcdef 2024-01-09)", []⟩)], []⟩
      "stable" false = "1.75.0" ∧
    make_toolchain_name ⟨19731, [("rust", ⟨"1.75.0 (abcdef 2024-01-09)", []⟩)], []⟩
      "stable" true = "stable-2024-01-09" := by
  constructor
  · exact (make_toolchain_name_spec ⟨19731, [("rust", ⟨"1.75.0 (abcdef 2024-01-09)", []⟩)], []⟩
      "stable" false).1 ⟨"1.75.0 (abcdef 2024-01-09)", []⟩ "1.75.0" rfl rfl rfl (by decide)
  · have h := (make_toolchain_name_spec ⟨19731, [("rust", ⟨"1.75.0 (abcdef 2024-01-09)", []⟩)], []⟩
      "stable" true).2 (Or.inl rfl)
    rw [h]
    decide

/-- Rust enum `ProfileOpt`. -/
inductive ProfileOpt where
  | Complete
  | Default
  | Minimal
deriving DecidableEq, Repr

/-- Profile name string selected by the `match profile` expression at
src/main.rs lines 192-196. -/
def profile_name : ProfileOpt → String
  | ProfileOpt.Complete => "complete"
  | ProfileOpt.Default => "default"
  | ProfileOpt.Minimal => "minimal"

/-- Terminal failures of `find_latest_viable_manifest`: a propagated
fetch error, the fatal "no manifest found for release channel" bail, and
the panic raised by `manifest.profiles[name]` on a missing key (a panic
aborts the run, so it is modelled as an error outcome). -/
inductive SearchError where
  | fetchError (msg : String)
  | noLatest (channel : String)
  | profilePanic (profileName : String)
deriving DecidableEq, Repr

/-- Network requests a resolver run can issue: the fixed latest-manifest
URL, or a date-stamped manifest URL. -/
inductive FetchReq where
  | latest
  | dated (date : ℤ)
deriving DecidableEq, Repr

/-- One element of the lazy `manifests` iterator built at src/main.rs
lines 182-188: the first element reuses the already-fetched latest
manifest, every further element stands for a pending date-stamped
fetch. -/
inductive CandSrc where
  | anchor (m : Manifest)
  | dated (date : ℤ)
deriving DecidableEq, Repr

/-- Obtaining a candidate's manifest: the anchor is already fetched, a
dated candidate consults the fetch oracle. -/
def src_result (fetch : ℤ → Except String (Option Manifest)) :
    CandSrc → Except String (Option Manifest)
  | CandSrc.anchor m => Except.ok (some m)
  | CandSrc.dated d => fetch d

/-- Date-stamped requests issued when a candidate is pulled from the
iterator: none for the anchor, one for a dated candidate. -/
def req_dates : CandSrc → List ℤ
  | CandSrc.anchor _ => []
  | CandSrc.dated d => [d]

/-- Candidate date of a source: the anchor manifest's own date, or the
date of the date-stamped URL. -/
def cand_date : CandSrc → ℤ
  | CandSrc.anchor m => m.date
  | CandSrc.dated d => d

/-- Embedding of the `for manifest in manifests` loop of
`find_latest_viable_manifest` (src/main.rs lines 190-204), paired with
the list of date-stamped fetches the loop performs (in order).  A fetch
error aborts (`?`), an absent manifest is skipped, a present manifest
has the profile resolved against its own `profiles` table (a missing
profile panics) and is returned if `filter_manifest` accepts it. -/
def search_go (fetch : ℤ → Except String (Option Manifest)) (pn : String)
    (ig tg : List String) :
    List CandSrc → Except SearchError (Option Manifest) × List ℤ
  | [] => (Except.ok none, [])
  | c :: rest =>
    match src_result fetch c with
    | Except.error e => (Except.error (SearchError.fetchError e), req_dates c)
    | Except.ok none =>
      ((search_go fetch pn ig tg rest).1,
        req_dates c ++ (search_go fetch pn ig tg rest).2)
    | Except.ok (some m) =>
      match m.profiles.lookup pn with
      | none => (Except.error (SearchError.profilePanic pn), req_dates c)
      | some prof =>
        if filter_manifest m prof ig tg then (Except.ok (some m), req_dates c)
        else
          ((search_go fetch pn ig tg rest).1,
            req_dates c ++ (search_go fetch pn ig tg rest).2)

/-- Model of `NaiveDate::checked_sub_signed` with `Duration::days day`.
In the unbounded-date model the subtraction always succeeds; `chrono`'s
year bound, under which it can return `None`, is idealized away. -/
def checked_sub_signed (date : ℤ) (day : ℤ) : Option ℤ :=
  some (date - day)

/-- Embedding of the `dates` iterator (src/main.rs lines 179-181): for
each `day` in the Rust range `1..max_age`, the anchor date minus `day`
days, skipping any failing subtraction. -/
def candidate_dates (start_date : ℤ) (max_age : ℕ) : List ℤ :=
  (List.range' 1 (max_age - 1)).filterMap
    fun day => checked_sub_signed start_date (Int.ofNat day)

/-- Candidate sources in search order: the pre-fetched latest manifest
first, then one pending fetch per candidate date. -/
def manifest_sources (latest : Manifest) (max_age : ℕ) : List CandSrc :=
  CandSrc.anchor latest :: (candidate_dates latest.date max_age).map CandSrc.dated

/-- Embedding of `find_latest_viable_manifest` (src/main.rs lines
161-207) over fetch oracles, paired with the list of requests the run
issues.  `latest_fetch` is the result of `get_manifest` on the fixed
latest-manifest URL; `fetch d` is the result of `get_manifest` on the
date-stamped URL for date `d`. -/
def find_latest_viable_manifest (latest_fetch : Except String (Option Manifest))
    (fetch : ℤ → Except String (Option Manifest)) (channel : String)
    (profile : ProfileOpt) (max_age : ℕ) (ignored_packages targets : List String) :
    Except SearchError (Option Manifest) × List FetchReq :=
  match latest_fetch with
  | Except.error e => (Except.error (SearchError.fetchError e), [FetchReq.latest])
  | Except.ok none => (Except.error (SearchError.noLatest channel), [FetchReq.latest])
  | Except.ok (some latest_manifest) =>
    let r := search_go fetch (profile_name profile) ignored_packages targets
      (manifest_sources latest_manifest max_age)
    (r.1, FetchReq.latest :: r.2.map FetchReq.dated)

/-- Viability of a candidate source, as the loop body decides it: its
manifest is present and `filter_manifest` accepts it under the profile
list resolved from that manifest's own `profiles` table. -/
def cand_viable (fetch : ℤ → Except String (Option Manifest)) (pn : String)
    (ig tg : List String) (c : CandSrc) : Bool :=
  match src_result fetch c with
  | Except.ok (some m) =>
    match m.profiles.lookup pn with
    | some prof => filter_manifest m prof ig tg
    | none => false
  | _ => false

/-- Unfolding equation for `search_go` on a cons cell. -/
theorem search_go_cons (fetch : ℤ → Except String (Option Manifest)) (pn : String)
    (ig tg : List String) (c : CandSrc) (rest : List CandSrc) :
    search_go fetch pn ig tg (c :: rest) =
      match src_result fetch c with
      | Except.error e => (Except.error (SearchError.fetchError e), req_dates c)
      | Except.ok none =>
        ((search_go fetch pn ig tg rest).1,
          req_dates c ++ (search_go fetch pn ig tg rest).2)
      | Except.ok (some m) =>
        match m.profiles.lookup pn with
        | none => (Except.error (SearchError.profilePanic pn), req_dates c)
        | some prof =>
          if filter_manifest m prof ig tg then (Except.ok (some m), req_dates c)
          else
            ((search_go fetch pn ig tg rest).1,
              req_dates c ++ (search_go fetch pn ig tg rest).2) := by
  rfl

/-- Characterization of a successful search: when the loop returns a
manifest, the candidate list splits at the candidate that produced it,
every earlier (more recent) candidate is non-viable, and the fetch log
covers exactly the candidates up to and including the hit. -/
theorem search_go_ok_some (fetch : ℤ → Except String (Option Manifest)) (pn : String)
    (ig tg : List String) (cs : List CandSrc) (m : Manifest)
    (h : (search_go fetch pn ig tg cs).1 = Except.ok (some m)) :
    ∃ pre c post, cs = pre ++ c :: post ∧
      src_result fetch c = Except.ok (some m) ∧
      cand_viable fetch pn ig tg c = true ∧
      (∀ c' ∈ pre, cand_viable fetch pn ig tg c' = false) ∧
      (search_go fetch pn ig tg cs).2 = (pre ++ [c]).flatMap req_dates := by
  induction cs with
  | nil => exact absurd h (by simp [search_go])
  | cons c rest ih =>
    rw [search_go_cons] at h ⊢
    cases hsrc : src_result fetch c with
    | error e =>
      rw [hsrc] at h
      simp at h
    | ok o =>
      cases o with
      | none =>
        rw [hsrc] at h
        dsimp only at h ⊢
        obtain ⟨pre, c', post, h1, h2, h3, h4, h5⟩ := ih h
        refine ⟨c :: pre, c', post, by rw [h1]; rfl, h2, h3, ?_, ?_⟩
        · intro x hx
          rcases List.mem_cons.mp hx with hx | hx
          · subst hx
            unfold cand_viable
            rw [hsrc]
          · exact h4 x hx
        · rw [h5]
          simp [List.flatMap_cons]
      | some m0 =>
        rw [hsrc] at h
        dsimp only at h ⊢
        cases hpl : m0.profiles.lookup pn with
        | none =>
          rw [hpl] at h
          simp at h
        | some prof =>
          rw [hpl] at h
          dsimp only at h ⊢
          by_cases hf : filter_manifest m0 prof ig tg = true
          · rw [if_pos hf] at h ⊢
            have hm : m0 = m := by
              simpa using h
            subst hm
            refine ⟨[], c, rest, rfl, by rw [hsrc], ?_, by simp, by simp⟩
            unfold cand_viable
            rw [hsrc]
            simp [hpl, hf]
          · rw [if_neg hf] at h ⊢
            dsimp only at h ⊢
            obtain ⟨pre, c', post, h1, h2, h3, h4, h5⟩ := ih h
            refine ⟨c :: pre, c', post, by rw [h1]; rfl, h2, h3, ?_, ?_⟩
            · intro x hx
              rcases List.mem_cons.mp hx with hx | hx
              · subst hx
                unfold cand_viable
                rw [hsrc]
                simp [hpl, hf]
              · exact h4 x hx
            · rw [h5]
              simp [List.flatMap_cons]

/-- Membership in the per-candidate request list identifies the
candidate as a dated one. -/
theorem mem_req_dates {c : CandSrc} {d : ℤ} (h : d ∈ req_dates c) :
    c = CandSrc.dated d := by
  cases c with
  | anchor m => exact absurd h (by simp [req_dates])
  | dated d0 =>
    simp [req_dates] at h
    rw [h]

/-- A successful association-list lookup witnesses membership. -/
theorem mem_of_lookup_eq_some {β : Type} :
    ∀ {l : List (String × β)} {p : String} {b : β},
    l.lookup p = some b → (p, b) ∈ l := by
  intro l
  induction l with
  | nil => intro p b h; exact absurd h (by simp)
  | cons e rest ih =>
    intro p b h
    obtain ⟨k, v⟩ := e
    rw [List.lookup_cons] at h
    by_cases hpk : p = k
    · subst hpk
      simp at h
      rw [h]
      exact List.mem_cons_self _ _
    · have hbeq : (p == k) = false := by simp [hpk]
      rw [hbeq] at h
      exact List.mem_cons_of_mem _ (ih h)

/-- Under unique keys, membership determines the association-list
lookup. -/
theorem lookup_eq_some_of_mem_nodup {β : Type} :
    ∀ {l : List (String × β)} {p : String} {b : β},
    (l.map Prod.fst).Nodup → (p, b) ∈ l → l.lookup p = some b := by
  intro l
  induction l with
  | nil => intro p b _ hmem; cases hmem
  | cons e rest ih =>
    intro p b hnd hmem
    obtain ⟨k, v⟩ := e
    rw [List.map_cons, List.nodup_cons] at hnd
    rcases List.mem_cons.mp hmem with he | hmem2
    · have hp : p = k := congrArg Prod.fst he
      have hb : b = v := congrArg Prod.snd he
      subst hp
      subst hb
      simp [List.lookup_cons]
    · have hpk : p ≠ k := by
        intro hcontra
        subst hcontra
        exact hnd.1 (List.mem_map.mpr ⟨(p, b), hmem2, rfl⟩)
      have hbeq : (p == k) = false := by simp [hpk]
      rw [List.lookup_cons, hbeq]
      exact ih hnd.2 hmem2

/-- Example anchor manifest (date 10): package "rustc" unavailable on
target "t", profile "default" = ["rustc"]; not viable. -/
def mAnchor : Manifest :=
  ⟨10, [("rustc", ⟨"1.75.0", [("t", ⟨false⟩)]⟩)], [("default", ["rustc"])]⟩

/-- Example previous-day manifest (date 9): package "rustc" available on
target "t"; viable. -/
def mPrev : Manifest :=
  ⟨9, [("rustc", ⟨"1.75.0", [("t", ⟨true⟩)]⟩)], [("default", ["rustc"])]⟩

/-- Example fetch oracle: date 9 has `mPrev`, every other date-stamped
manifest is absent. -/
def exFetch : ℤ → Except String (Option Manifest) :=
  fun d => if d = 9 then Except.ok (some mPrev) else Except.ok none

/-- C2: when the backward search returns a manifest, that manifest comes
from a candidate all of whose more recent (earlier-examined) candidates
fail the viability predicate — the resolver never returns an older
viable manifest when a newer candidate also qualifies. -/
theorem find_latest_viable_manifest_most_recent
    (latest_fetch : Except String (Option Manifest))
    (fetch : ℤ → Except String (Option Manifest)) (channel : String)
    (profile : ProfileOpt) (max_age : ℕ) (ig tg : List String)
    (latest m : Manifest)
    (hl : latest_fetch = Except.ok (some latest))
    (h : (find_latest_viable_manifest latest_fetch fetch channel profile
      max_age ig tg).1 = Except.ok (some m)) :
    ∃ pre c post, manifest_sources latest max_age = pre ++ c :: post ∧
      src_result fetch c = Except.ok (some m) ∧
      cand_viable fetch (profile_name profile) ig tg c = true ∧
      ∀ c' ∈ pre, cand_viable fetch (profile_name profile) ig tg c' = false := by
  subst hl
  unfold find_latest_viable_manifest at h
  dsimp only at h
  obtain ⟨pre, c, post, h1, h2, h3, h4, _⟩ :=
    search_go_ok_some fetch (profile_name profile) ig tg
      (manifest_sources latest max_age) m h
  exact ⟨pre, c, post, h1, h2, h3, h4⟩

/-- Concrete instantiation of `find_latest_viable_manifest_most_recent`:
with a non-viable anchor of date 10 and a viable manifest at date 9, the
search returns the date-9 manifest and the anchor is certified
non-viable. -/
theorem find_latest_viable_manifest_most_recent_witness :
    ∃ pre c post, manifest_sources mAnchor 3 = pre ++ c :: post ∧
      src_result exFetch c = Except.ok (some mPrev) ∧
      cand_viable exFetch (profile_name ProfileOpt.Default) [] ["t"] c = true ∧
      ∀ c' ∈ pre, cand_viable exFetch (profile_name ProfileOpt.Default) [] ["t"] c' = false :=
  find_latest_viable_manifest_most_recent (Except.ok (some mAnchor)) exFetch
    "stable" ProfileOpt.Default 3 [] ["t"] mAnchor mPrev rfl (by rfl)

/-- A filterMap by a total some-valued function is a map. -/
theorem filterMap_some_eq_map {α β : Type} (f : α → β) :
    ∀ l : List α, l.filterMap (fun a => some (f a)) = l.map f := by
  intro l
  induction l with
  | nil => rfl
  | cons a rest ih => simp [List.filterMap_cons, ih]

/-- Every date the search loop fetches belongs to a dated candidate of
the list it walks. -/
theorem search_go_log_mem (fetch : ℤ → Except String (Option Manifest)) (pn : String)
    (ig tg : List String) :
    ∀ cs : List CandSrc, ∀ d ∈ (search_go fetch pn ig tg cs).2,
      CandSrc.dated d ∈ cs := by
  intro cs
  induction cs with
  | nil =>
    intro d hd
    exact absurd hd (by simp [search_go])
  | cons c rest ih =>
    intro d hd
    rw [search_go_cons] at hd
    cases hsrc : src_result fetch c with
    | error e =>
      rw [hsrc] at hd
      dsimp only at hd
      rw [mem_req_dates hd]
      exact List.mem_cons_self _ _
    | ok o =>
      cases o with
      | none =>
        rw [hsrc] at hd
        dsimp only at hd
        rcases List.mem_append.mp hd with hd | hd
        · rw [mem_req_dates hd]
          exact List.mem_cons_self _ _
        · exact List.mem_cons_of_mem _ (ih d hd)
      | some m0 =>
        rw [hsrc] at hd
        dsimp only at hd
        cases hpl : m0.profiles.lookup pn with
        | none =>
          rw [hpl] at hd
          dsimp only at hd
          rw [mem_req_dates hd]
          exact List.mem_cons_self _ _
        | some prof =>
          rw [hpl] at hd
          dsimp only at hd
          by_cases hf : filter_manifest m0 prof ig tg = true
          · rw [if_pos hf] at hd
            rw [mem_req_dates hd]
            exact List.mem_cons_self _ _
          · rw [if_neg hf] at hd
            dsimp only at hd
            rcases List.mem_append.mp hd with hd | hd
            · rw [mem_req_dates hd]
              exact List.mem_cons_self _ _
            · exact List.mem_cons_of_mem _ (ih d hd)

/-- C3: the candidate sequence examined by the backward search is
exactly the anchor (carrying the already-fetched latest manifest)
followed by anchor−1, anchor−2, …, anchor−(maxAge−1) days in that
order, and every date-stamped request the run issues is for a date
strictly before the anchor date — the anchor is never refetched via a
date-stamped URL. -/
theorem candidate_sequence_exact
    (latest_fetch : Except String (Option Manifest))
    (fetch : ℤ → Except String (Option Manifest)) (channel : String)
    (profile : ProfileOpt) (max_age : ℕ) (ig tg : List String) (latest : Manifest)
    (hl : latest_fetch = Except.ok (some latest)) :
    manifest_sources latest max_age =
      CandSrc.anchor latest ::
        (List.range' 1 (max_age - 1)).map
          (fun day : ℕ => CandSrc.dated (latest.date - (day : ℤ))) ∧
    ∀ req ∈ (find_latest_viable_manifest latest_fetch fetch channel profile
        max_age ig tg).2,
      req = FetchReq.latest ∨ ∃ d, req = FetchReq.dated d ∧ d < latest.date := by
  subst hl
  constructor
  · unfold manifest_sources candidate_dates checked_sub_signed
    rw [filterMap_some_eq_map (fun day : ℕ => latest.date - (Int.ofNat day))]
    rw [List.map_map]
    rfl
  · intro req hreq
    unfold find_latest_viable_manifest at hreq
    dsimp only at hreq
    rcases List.mem_cons.mp hreq with hreq | hreq
    · exact Or.inl hreq
    · rw [List.mem_map] at hreq
      obtain ⟨d, hd, hreq⟩ := hreq
      refine Or.inr ⟨d, hreq.symm, ?_⟩
      have hmem := search_go_log_mem fetch (profile_name profile) ig tg
        (manifest_sources latest max_age) d hd
      unfold manifest_sources at hmem
      rcases List.mem_cons.mp hmem with hmem | hmem
      · exact absurd hmem (by simp)
      · rw [List.mem_map] at hmem
        obtain ⟨d0, hd0, hmem⟩ := hmem
        have hdd : d0 = d := by
          injection hmem
        subst hdd
        unfold candidate_dates checked_sub_signed at hd0
        rw [List.mem_filterMap] at hd0
        obtain ⟨day, hday, hsome⟩ := hd0
        have hd0eq : latest.date - (Int.ofNat day) = d0 := by
          injection hsome
        rw [← hd0eq]
        have hge : 1 ≤ day := (List.mem_range'_1.mp hday).1
        have hcast : Int.ofNat day = (day : ℤ) := rfl
        rw [hcast]
        omega

/-- Concrete instantiation of `candidate_sequence_exact` at anchor date
10 and maxAge 3. -/
theorem candidate_sequence_exact_witness :
    manifest_sources mAnchor 3 =
      CandSrc.anchor mAnchor ::
        (List.range' 1 (3 - 1)).map
          (fun day : ℕ => CandSrc.dated (mAnchor.date - (day : ℤ))) ∧
    ∀ req ∈ (find_latest_viable_manifest (Except.ok (some mAnchor)) exFetch
        "stable" ProfileOpt.Default 3 [] ["t"]).2,
      req = FetchReq.latest ∨ ∃ d, req = FetchReq.dated d ∧ d < mAnchor.date :=
  candidate_sequence_exact (Except.ok (some mAnchor)) exFetch "stable"
    ProfileOpt.Default 3 [] ["t"] mAnchor rfl

/-- Candidate dates of the search sequence are strictly decreasing:
the anchor date first, then each dated candidate strictly older. -/
theorem manifest_sources_dates_decreasing (latest : Manifest) (max_age : ℕ) :
    ((manifest_sources latest max_age).map cand_date).Pairwise
      (fun a b => b < a) := by
  unfold manifest_sources candidate_dates checked_sub_signed
  rw [filterMap_some_eq_map (fun day : ℕ => latest.date - (Int.ofNat day))]
  rw [List.map_cons, List.map_map, List.map_map]
  rw [List.pairwise_cons]
  constructor
  · intro b hb
    rw [List.mem_map] at hb
    obtain ⟨day, hday, hb⟩ := hb
    have hge : 1 ≤ day := (List.mem_range'_1.mp hday).1
    have hb2 : latest.date - (Int.ofNat day) = b := hb
    have hcast : Int.ofNat day = (day : ℤ) := rfl
    rw [hcast] at hb2
    have : cand_date (CandSrc.anchor latest) = latest.date := rfl
    rw [this]
    omega
  · rw [List.pairwise_map]
    refine (List.pairwise_lt_range' 1 (max_age - 1) 1).imp ?_
    intro a b hab
    show cand_date (CandSrc.dated (latest.date - Int.ofNat b)) <
      cand_date (CandSrc.dated (latest.date - Int.ofNat a))
    show latest.date - (b : ℤ) < latest.date - (a : ℤ)
    omega

/-- C8: when the backward search returns a manifest, every date-stamped
fetch the run issued targets a date at least as recent as the candidate
date of the returned result — once a candidate satisfies the viability
predicate, no fetch request is ever issued for an older candidate
date. -/
theorem search_no_fetch_older_than_result
    (latest_fetch : Except String (Option Manifest))
    (fetch : ℤ → Except String (Option Manifest)) (channel : String)
    (profile : ProfileOpt) (max_age : ℕ) (ig tg : List String)
    (latest m : Manifest)
    (hl : latest_fetch = Except.ok (some latest))
    (h : (find_latest_viable_manifest latest_fetch fetch channel profile
      max_age ig tg).1 = Except.ok (some m)) :
    ∃ pre c post, manifest_sources latest max_age = pre ++ c :: post ∧
      src_result fetch c = Except.ok (some m) ∧
      cand_viable fetch (profile_name profile) ig tg c = true ∧
      ∀ d, FetchReq.dated d ∈ (find_latest_viable_manifest latest_fetch fetch
        channel profile max_age ig tg).2 → cand_date c ≤ d := by
  subst hl
  unfold find_latest_viable_manifest at h ⊢
  dsimp only at h ⊢
  obtain ⟨pre, c, post, h1, h2, h3, _, h5⟩ :=
    search_go_ok_some fetch (profile_name profile) ig tg
      (manifest_sources latest max_age) m h
  refine ⟨pre, c, post, h1, h2, h3, ?_⟩
  intro d hd
  rcases List.mem_cons.mp hd with hbad | hd
  · exact absurd hbad (by simp)
  · rw [List.mem_map] at hd
    obtain ⟨d0, hd0, hdd⟩ := hd
    have hdeq : d0 = d := by injection hdd
    subst hdeq
    rw [h5] at hd0
    rw [List.mem_flatMap] at hd0
    obtain ⟨c', hc', hdc'⟩ := hd0
    have hceq := mem_req_dates hdc'
    have hpw := manifest_sources_dates_decreasing latest max_age
    rw [h1, List.map_append] at hpw
    rcases List.mem_append.mp hc' with hpre | hsing
    · have hlt : cand_date c < cand_date c' :=
        (List.pairwise_append.mp hpw).2.2 (cand_date c')
          (List.mem_map_of_mem cand_date hpre) (cand_date c)
          (by rw [List.map_cons]; exact List.mem_cons_self _ _)
      have hcd : cand_date c' = d0 := by rw [hceq]; rfl
      rw [← hcd]
      exact le_of_lt hlt
    · have hcc : c' = c := List.mem_singleton.mp hsing
      have hcd : cand_date c' = d0 := by rw [hceq]; rfl
      rw [← hcd, hcc]

/-- Concrete instantiation of `search_no_fetch_older_than_result` on the
date-10 / date-9 scenario. -/
theorem search_no_fetch_older_than_result_witness :
    ∃ pre c post, manifest_sources mAnchor 3 = pre ++ c :: post ∧
      src_result exFetch c = Except.ok (some mPrev) ∧
      cand_viable exFetch (profile_name ProfileOpt.Default) [] ["t"] c = true ∧
      ∀ d, FetchReq.dated d ∈ (find_latest_viable_manifest (Except.ok (some mAnchor))
        exFetch "stable" ProfileOpt.Default 3 [] ["t"]).2 → cand_date c ≤ d :=
  search_no_fetch_older_than_result (Except.ok (some mAnchor)) exFetch "stable"
    ProfileOpt.Default 3 [] ["t"] mAnchor mPrev rfl (by rfl)

/-- C10: with maxAge = 0 the candidate sequence still contains the
anchor alone, the run issues exactly one fetch request (the latest
manifest), and a viable latest manifest is returned as the result. -/
theorem max_age_zero_still_checks_anchor
    (latest_fetch : Except String (Option Manifest))
    (fetch : ℤ → Except String (Option Manifest)) (channel : String)
    (profile : ProfileOpt) (ig tg : List String) (latest : Manifest)
    (hl : latest_fetch = Except.ok (some latest)) :
    manifest_sources latest 0 = [CandSrc.anchor latest] ∧
    (find_latest_viable_manifest latest_fetch fetch channel profile 0 ig tg).2 =
      [FetchReq.latest] ∧
    (∀ prof, latest.profiles.lookup (profile_name profile) = some prof →
      filter_manifest latest prof ig tg = true →
      (find_latest_viable_manifest latest_fetch fetch channel profile 0 ig tg).1 =
        Except.ok (some latest)) := by
  subst hl
  refine ⟨rfl, ?_, ?_⟩
  · unfold find_latest_viable_manifest
    dsimp only
    have hsrc : manifest_sources latest 0 = [CandSrc.anchor latest] := rfl
    rw [hsrc, search_go_cons]
    have hanch : src_result fetch (CandSrc.anchor latest) = Except.ok (some latest) := rfl
    rw [hanch]
    dsimp only
    cases hpl : latest.profiles.lookup (profile_name profile) with
    | none => rfl
    | some prof =>
      dsimp only
      by_cases hf : filter_manifest latest prof ig tg = true
      · rw [if_pos hf]
        rfl
      · rw [if_neg hf]
        rfl
  · intro prof hpl hf
    unfold find_latest_viable_manifest
    dsimp only
    have hsrc : manifest_sources latest 0 = [CandSrc.anchor latest] := rfl
    rw [hsrc, search_go_cons]
    have hanch : src_result fetch (CandSrc.anchor latest) = Except.ok (some latest) := rfl
    rw [hanch]
    dsimp only
    rw [hpl]
    dsimp only
    rw [if_pos hf]

/-- Concrete instantiation of `max_age_zero_still_checks_anchor`: with
the viable date-9 manifest as the latest, a maxAge-0 run issues one
request and returns it. -/
theorem max_age_zero_still_checks_anchor_witness :
    manifest_sources mPrev 0 = [CandSrc.anchor mPrev] ∧
    (find_latest_viable_manifest (Except.ok (some mPrev)) exFetch "stable"
      ProfileOpt.Default 0 [] ["t"]).2 = [FetchReq.latest] ∧
    (∀ prof, mPrev.profiles.lookup (profile_name ProfileOpt.Default) = some prof →
      filter_manifest mPrev prof [] ["t"] = true →
      (find_latest_viable_manifest (Except.ok (some mPrev)) exFetch "stable"
        ProfileOpt.Default 0 [] ["t"]).1 = Except.ok (some mPrev)) :=
  max_age_zero_still_checks_anchor (Except.ok (some mPrev)) exFetch "stable"
    ProfileOpt.Default [] ["t"] mPrev rfl

/-- C9: a package name that appears in the profile list but has no entry
at all in the manifest's package map is skipped entirely by the
availability filter — adding it to the profile changes nothing, so a
manifest missing a required package can still be judged viable. -/
theorem absent_package_skipped (m : Manifest) (p : String)
    (profile ig tg : List String)
    (hab : p ∉ m.packages.map Prod.fst) :
    filter_manifest m (p :: profile) ig tg = filter_manifest m profile ig tg := by
  unfold filter_manifest
  have hfil : (m.packages.filter fun pkg =>
      if ig.contains pkg.1 then false
      else if !((p :: profile).contains pkg.1) then false
      else true) =
    (m.packages.filter fun pkg =>
      if ig.contains pkg.1 then false
      else if !(profile.contains pkg.1) then false
      else true) := by
    apply List.filter_congr
    intro x hx
    have hne : x.1 ≠ p := by
      intro hcontra
      exact hab (hcontra ▸ List.mem_map.mpr ⟨x, hx, rfl⟩)
    rw [List.contains_cons]
    have hbeq : (x.1 == p) = false := by simp [hne]
    rw [hbeq]
    rfl
  rw [hfil]

/-- Concrete instantiation of `absent_package_skipped`: requiring the
absent package "missing" leaves the date-9 manifest viable. -/
theorem absent_package_skipped_witness :
    filter_manifest mPrev ("missing" :: ["rustc"]) [] ["t"] =
      filter_manifest mPrev ["rustc"] [] ["t"] ∧
    filter_manifest mPrev ("missing" :: ["rustc"]) [] ["t"] = true :=
  ⟨absent_package_skipped mPrev "missing" ["rustc"] [] ["t"] (by decide), by rfl⟩

/-- Modelled from the spec (section 4.2): evaluate exactly the members
of the profile's package list that are not ignored; for each, look the
package up in the manifest and check every explicitly present target
entry, skipping packages and entries that are absent. -/
def isViable_spec (m : Manifest) (inScopePackages ignoredPackages inScopeTargets : List String) : Bool :=
  (inScopePackages.filter fun p => !(ignoredPackages.contains p)).all fun p =>
    match m.packages.lookup p with
    | none => true
    | some pt =>
      inScopeTargets.all fun t =>
        match pt.targets.lookup t with
        | none => true
        | some pi => pi.available

/-- Characterization of the spec-side predicate. -/
theorem isViable_spec_eq_true_iff (m : Manifest)
    (inScope ignored targets : List String) :
    isViable_spec m inScope ignored targets = true ↔
      ∀ p ∈ inScope, p ∉ ignored → ∀ pt, m.packages.lookup p = some pt →
        ∀ t ∈ targets, ∀ pi, pt.targets.lookup t = some pi → pi.available = true := by
  unfold isViable_spec
  rw [List.all_eq_true]
  constructor
  · intro h p hp hig pt hpt t ht pi hpi
    have hmem : p ∈ inScope.filter fun p => !(ignored.contains p) := by
      rw [List.mem_filter]
      refine ⟨hp, ?_⟩
      simp [hig]
    have := h p hmem
    rw [hpt] at this
    rw [List.all_eq_true] at this
    have := this t ht
    rw [hpi] at this
    exact this
  · intro h p hp
    rw [List.mem_filter] at hp
    obtain ⟨hp, hig⟩ := hp
    have hig2 : p ∉ ignored := by
      intro hcontra
      simp [hcontra] at hig
    cases hpt : m.packages.lookup p with
    | none => rfl
    | some pt =>
      rw [List.all_eq_true]
      intro t ht
      cases hpi : pt.targets.lookup t with
      | none => rfl
      | some pi => exact h p hp hig2 pt hpt t ht pi hpi

/-- Invariance of the filter's package walk under changes confined to
ignored packages: two manifests whose package lists have pointwise equal
names, and equal data outside the ignored set, filter identically. -/
theorem filter_pkgs_congr (profile ignored targets : List String) :
    ∀ l l2 : List (String × PackageTargets),
    List.Forall₂ (fun e e2 => e.1 = e2.1 ∧ (e.1 ∉ ignored → e.2 = e2.2)) l l2 →
    ((l.filter fun pkg =>
        if ignored.contains pkg.1 then false
        else if !(profile.contains pkg.1) then false
        else true).flatMap fun pkg =>
          targets.filterMap fun target => pkg.2.targets.lookup target).all
      (fun package_info => package_info.available) =
    ((l2.filter fun pkg =>
        if ignored.contains pkg.1 then false
        else if !(profile.contains pkg.1) then false
        else true).flatMap fun pkg =>
          targets.filterMap fun target => pkg.2.targets.lookup target).all
      (fun package_info => package_info.available) := by
  intro l l2 hrel
  induction hrel with
  | nil => rfl
  | @cons a b l1 l3 hab hrest ih =>
    obtain ⟨hname, hdata⟩ := hab
    by_cases hig : a.1 ∈ ignored
    · have ha : (if ignored.contains a.1 then false
        else if !(profile.contains a.1) then false else true) = false := by
        simp [hig]
      have hb : (if ignored.contains b.1 then false
        else if !(profile.contains b.1) then false else true) = false := by
        rw [← hname]
        exact ha
      rw [List.filter_cons, List.filter_cons, ha, hb]
      simp only [if_neg (by simp : ¬(false = true))]
      exact ih
    · have hab2 : a = b := Prod.ext hname (hdata hig)
      rw [List.filter_cons, List.filter_cons, ← hab2]
      by_cases hsel : (if ignored.contains a.1 then false
        else if !(profile.contains a.1) then false else true) = true
      · rw [if_pos hsel, if_pos hsel]
        rw [List.flatMap_cons, List.flatMap_cons, List.all_append, List.all_append]
        rw [ih]
      · rw [if_neg hsel, if_neg hsel]
        exact ih

/-- C7: the filter's verdict is that of checking exactly the profile's
declared package list minus the ignored set (under the unique-keys
invariant of the package map), and changing the data of ignored packages
never changes the filter's result. -/
theorem filter_profile_minus_ignored (m m2 : Manifest)
    (profile ignored targets : List String) :
    ((m.packages.map Prod.fst).Nodup →
      filter_manifest m profile ignored targets =
        isViable_spec m profile ignored targets) ∧
    (List.Forall₂ (fun e e2 => e.1 = e2.1 ∧ (e.1 ∉ ignored → e.2 = e2.2))
        m.packages m2.packages →
      filter_manifest m profile ignored targets =
        filter_manifest m2 profile ignored targets) := by
  constructor
  · intro hnd
    rw [Bool.eq_iff_iff, filter_manifest_eq_true_iff, isViable_spec_eq_true_iff]
    constructor
    · intro h p hp hig pt hpt t ht pi hpi
      exact h p pt (mem_of_lookup_eq_some hpt) hig hp t ht pi hpi
    · intro h p pt hmem hig hp t ht pi hpi
      exact h p hp hig pt (lookup_eq_some_of_mem_nodup hnd hmem) t ht pi hpi
  · intro hrel
    unfold filter_manifest
    exact filter_pkgs_congr profile ignored targets m.packages m2.packages hrel

/-- Example manifest with an ignored package unavailable. -/
def mIg : Manifest :=
  ⟨9, [("rustc", ⟨"1.0", [("t", ⟨true⟩)]⟩), ("lldb-preview", ⟨"1.0", [("t", ⟨false⟩)]⟩)],
    [("default", ["rustc", "lldb-preview"])]⟩

/-- The same manifest with the ignored package's availability flipped. -/
def mIg2 : Manifest :=
  ⟨9, [("rustc", ⟨"1.0", [("t", ⟨true⟩)]⟩), ("lldb-preview", ⟨"1.0", [("t", ⟨true⟩)]⟩)],
    [("default", ["rustc", "lldb-preview"])]⟩

/-- Concrete instantiation of `filter_profile_minus_ignored`: flipping
the availability of the ignored "lldb-preview" package does not change
the verdict, which matches the spec-side predicate. -/
theorem filter_profile_minus_ignored_witness :
    filter_manifest mIg ["rustc", "lldb-preview"] ["lldb-preview"] ["t"] =
      isViable_spec mIg ["rustc", "lldb-preview"] ["lldb-preview"] ["t"] ∧
    filter_manifest mIg ["rustc", "lldb-preview"] ["lldb-preview"] ["t"] =
      filter_manifest mIg2 ["rustc", "lldb-preview"] ["lldb-preview"] ["t"] :=
  ⟨(filter_profile_minus_ignored mIg mIg2 ["rustc", "lldb-preview"]
      ["lldb-preview"] ["t"]).1 (by decide),
   (filter_profile_minus_ignored mIg mIg2 ["rustc", "lldb-preview"]
      ["lldb-preview"] ["t"]).2
    (List.Forall₂.cons ⟨rfl, fun _ => rfl⟩
      (List.Forall₂.cons ⟨rfl, fun h => absurd (by decide) h⟩ List.Forall₂.nil))⟩

/-- Search loop variant written from the claim's words for comparison:
the profile package list is fixed before the walk, so every candidate
manifest is filtered under the same list and candidate manifests'
own profile tables are never consulted. -/
def search_go_fixed_profile (fetch : ℤ → Except String (Option Manifest))
    (prof : List String) (ig tg : List String) :
    List CandSrc → Except SearchError (Option Manifest) × List ℤ
  | [] => (Except.ok none, [])
  | c :: rest =>
    match src_result fetch c with
    | Except.error e => (Except.error (SearchError.fetchError e), req_dates c)
    | Except.ok none =>
      ((search_go_fixed_profile fetch prof ig tg rest).1,
        req_dates c ++ (search_go_fixed_profile fetch prof ig tg rest).2)
    | Except.ok (some m) =>
      if filter_manifest m prof ig tg then (Except.ok (some m), req_dates c)
      else
        ((search_go_fixed_profile fetch prof ig tg rest).1,
          req_dates c ++ (search_go_fixed_profile fetch prof ig tg rest).2)

/-- Resolver variant written from the claim's words for comparison:
the profile name is resolved once, in step 2, via the latest (anchor)
manifest's profiles table, before the date walk begins; a profile name
absent from that table is fatal there. -/
def find_latest_viable_manifest_profile_from_anchor
    (latest_fetch : Except String (Option Manifest))
    (fetch : ℤ → Except String (Option Manifest)) (channel : String)
    (profile : ProfileOpt) (max_age : ℕ) (ignored_packages targets : List String) :
    Except SearchError (Option Manifest) × List FetchReq :=
  match latest_fetch with
  | Except.error e => (Except.error (SearchError.fetchError e), [FetchReq.latest])
  | Except.ok none => (Except.error (SearchError.noLatest channel), [FetchReq.latest])
  | Except.ok (some latest_manifest) =>
    match latest_manifest.profiles.lookup (profile_name profile) with
    | none =>
      (Except.error (SearchError.profilePanic (profile_name profile)),
        [FetchReq.latest])
    | some prof =>
      let r := search_go_fixed_profile fetch prof ignored_packages targets
        (manifest_sources latest_manifest max_age)
      (r.1, FetchReq.latest :: r.2.map FetchReq.dated)

/-- Anchor manifest for the profile-resolution counterexample: package
"a" unavailable, profile "default" = ["a"]. -/
def mCx : Manifest :=
  ⟨10, [("a", ⟨"1.0", [("t", ⟨false⟩)]⟩)], [("default", ["a"])]⟩

/-- Previous-day manifest for the counterexample: same unavailable
package, but its own "default" profile is empty. -/
def mCxPrev : Manifest :=
  ⟨9, [("a", ⟨"1.0", [("t", ⟨false⟩)]⟩)], [("default", [])]⟩

/-- Fetch oracle for the counterexample: date 9 has `mCxPrev`, all other
date-stamped manifests are absent. -/
def cxFetch : ℤ → Except String (Option Manifest) :=
  fun d => if d = 9 then Except.ok (some mCxPrev) else Except.ok none

/-- Counterexample to C4: the program resolves the profile per candidate
manifest, not once from the anchor.  On this input the real search
accepts the date-9 manifest because that manifest's own "default"
profile is empty, while the claim-side resolver, which fixes the
anchor's profile list ["a"], rejects every candidate. -/
theorem profile_resolution_counterexample :
    (find_latest_viable_manifest (Except.ok (some mCx)) cxFetch "stable"
      ProfileOpt.Default 2 [] ["t"]).1 = Except.ok (some mCxPrev) ∧
    (find_latest_viable_manifest_profile_from_anchor (Except.ok (some mCx))
      cxFetch "stable" ProfileOpt.Default 2 [] ["t"]).1 = Except.ok none :=
  ⟨rfl, rfl⟩

/-- C4 as amended: the profile name is resolved per candidate manifest,
inside the date walk, against each candidate's own profiles table; a
profile name absent from an examined candidate's table is fatal (the
indexing panic) and aborts the run at that candidate, neither skipped
nor retried. -/
theorem profile_resolved_per_candidate
    (fetch : ℤ → Except String (Option Manifest)) (pn : String)
    (ig tg : List String) (c : CandSrc) (rest : List CandSrc) (m : Manifest) :
    (src_result fetch c = Except.ok (some m) →
      m.profiles.lookup pn = none →
      (search_go fetch pn ig tg (c :: rest)).1 =
        Except.error (SearchError.profilePanic pn)) ∧
    (∀ prof, src_result fetch c = Except.ok (some m) →
      m.profiles.lookup pn = some prof →
      (search_go fetch pn ig tg (c :: rest)).1 =
        if filter_manifest m prof ig tg then Except.ok (some m)
        else (search_go fetch pn ig tg rest).1) := by
  constructor
  · intro hsrc hpl
    rw [search_go_cons, hsrc]
    dsimp only
    rw [hpl]
  · intro prof hsrc hpl
    rw [search_go_cons, hsrc]
    dsimp only
    rw [hpl]
    dsimp only
    by_cases hf : filter_manifest m prof ig tg = true
    · rw [if_pos hf, if_pos hf]
    · rw [if_neg hf, if_neg hf]

/-- Concrete instantiation of `profile_resolved_per_candidate`: a
candidate manifest with no "default" profile aborts the walk with the
panic outcome. -/
theorem profile_resolved_per_candidate_witness :
    (search_go cxFetch "default" [] ["t"] [CandSrc.anchor ⟨8, [], []⟩]).1 =
      Except.error (SearchError.profilePanic "default") :=
  (profile_resolved_per_candidate cxFetch "default" [] ["t"]
    (CandSrc.anchor ⟨8, [], []⟩) [] ⟨8, [], []⟩).1 rfl rfl
